import Mathlib

/-!
Verification of the lead-scoring engine (`LeadProcessor` in
`bdr_ai/process_leads.py`) and the request-retry-and-cache layer
(`ApolloAPI` in `bdr_ai/apollo_api.py`) of the AI_BDR repository.

The Python code is shallowly embedded: dictionaries with a fixed key set
become structures, Python `float` scores become exact rationals (every
weight in the source is a short decimal literal, and every property at
stake is exact decimal arithmetic), Python iteration order over literal
dicts becomes list order, and the stateful retry loop becomes explicit
state passing with an oracle giving the outcome of each HTTP attempt.
-/

/-- Whitespace test used by Python `str.split()` (ASCII whitespace). -/
def pyIsSpace (c : Char) : Bool :=
  c = ' ' || c = '\t' || c = '\n' || c = '\r' || c = '\x0b' || c = '\x0c'

/-- Helper for `pySplit`: accumulates the current word (reversed) while
scanning the character list, dropping whitespace runs. -/
def pySplitChars : List Char → List Char → List (List Char)
  | [], acc => if acc = [] then [] else [acc.reverse]
  | c :: cs, acc =>
    if pyIsSpace c then
      if acc = [] then pySplitChars cs []
      else acc.reverse :: pySplitChars cs []
    else pySplitChars cs (c :: acc)

/-- Embedding of Python `s.split()`: split on whitespace runs, no empty
words. -/
def pySplit (s : String) : List String :=
  (pySplitChars s.data []).map (fun l => String.mk l)

/-- Embedding of Python `needle in hay` on strings: contiguous substring
containment. -/
def pyContains (hay needle : String) : Bool :=
  hay.data.tails.any (fun t => needle.data.isPrefixOf t)

/-- Embedding of Python `s.lower()` (ASCII case folding, which covers every
key of the scoring tables). -/
def pyLower (s : String) : String :=
  String.mk (s.data.map Char.toLower)

/-- Embedding of Python `round(q, 3)` over exact rationals: round
`q * 1000` to the nearest integer, ties to even, and divide back. -/
def pyRound3 (q : Rat) : Rat :=
  let t : Rat := q * 1000
  let f : Int := ⌊t⌋
  let n : Int :=
    if t - f < 1/2 then f
    else if (1 : Rat)/2 < t - f then f + 1
    else if f % 2 = 0 then f else f + 1
  (n : Rat) / 1000

/-- The ordered industry weight table of `LeadProcessor.__init__`
(insertion order of the Python dict is priority order). -/
def industry_weights : List (String × Rat) :=
  [("technology", 1), ("software", 1), ("saas", 1), ("cybersecurity", 9/10),
   ("fintech", 8/10), ("healthcare", 7/10), ("ecommerce", 7/10),
   ("manufacturing", 6/10), ("consulting", 5/10), ("retail", 4/10),
   ("education", 4/10), ("non-profit", 3/10)]

/-- The region weight table of `LeadProcessor.__init__`. -/
def region_weights : List (String × Rat) :=
  [("North America", 1), ("Europe", 9/10), ("Other", 1/2)]

/-- One entry of the `size_ranges` dict of `LeadProcessor.__init__`:
the dict key and the `(min, max, weight)` triple. -/
structure SizeRange where
  rangeName : String
  lo : Int
  hi : Int
  weight : Rat

/-- The ordered `size_ranges` table of `LeadProcessor.__init__`. -/
def size_ranges : List SizeRange :=
  [⟨"50-100", 50, 100, 8/10⟩, ⟨"100-300", 100, 300, 1⟩,
   ⟨"300-500", 300, 500, 7/10⟩]

/-- Embedding of `LeadProcessor.calculate_industry_score`: empty input is
neutral, then a first-match-wins substring pass over the table, then a
word-level pass with a 0.8 multiplier, then the unknown default. -/
def calculate_industry_score (industry : String) : Rat × String :=
  if industry = "" then (1/2, "industry:unknown")
  else
    match industry_weights.find? (fun kw => pyContains (pyLower industry) kw.1) with
    | some kw => (kw.2, "industry:" ++ kw.1)
    | none =>
      match industry_weights.find?
          (fun kw => (pySplit kw.1).any (fun w => pyContains (pyLower industry) w)) with
      | some kw => (kw.2 * (8/10), "industry:" ++ kw.1 ++ "(partial)")
      | none => (3/10, "industry:unknown")

/-- Embedding of `LeadProcessor.calculate_company_size_score`: 0 (or a
missing field, which `lead.get` defaults to 0) is unknown, then the ranges
of `size_ranges` are tried in dict order, then too-small/too-large. -/
def calculate_company_size_score (company_size : Int) : Rat × String :=
  if company_size = 0 then (1/2, "size:unknown")
  else
    match size_ranges.find?
        (fun r => decide (r.lo ≤ company_size ∧ company_size ≤ r.hi)) with
    | some r => (r.weight, "size:" ++ r.rangeName)
    | none =>
      if company_size < 50 then (3/10, "size:too-small")
      else (3/10, "size:too-large")

/-- Embedding of the flat revision `process_leads.py` (repository root) of
`calculate_company_size_score`, which returns no reason and checks the
optimal 100..300 range first. -/
def calculate_company_size_score_flat (company_size : Int) : Rat :=
  if company_size = 0 then 1/2
  else if 100 ≤ company_size ∧ company_size ≤ 300 then 1
  else if 50 ≤ company_size ∧ company_size < 100 then 8/10
  else if 300 < company_size ∧ company_size ≤ 500 then 7/10
  else 3/10

/-- Embedding of `LeadProcessor.calculate_region_score`: exact dict lookup
with default 0.5, reason built from the lower-cased region. -/
def calculate_region_score (region : String) : Rat × String :=
  match region_weights.find? (fun kw => decide (kw.1 = region)) with
  | some kw => (kw.2, "region:" ++ pyLower region)
  | none => (1/2, "region:" ++ pyLower region)

/-- `Config.INDUSTRY_WEIGHT` from `config.py`. -/
def INDUSTRY_WEIGHT : Rat := 4/10

/-- `Config.COMPANY_SIZE_WEIGHT` from `config.py`. -/
def COMPANY_SIZE_WEIGHT : Rat := 3/10

/-- `Config.REGION_WEIGHT` from `config.py`. -/
def REGION_WEIGHT : Rat := 3/10

/-- A lead record, restricted to the fields the scoring engine reads.
`lead.get('company_industry', '')`, `lead.get('company_size', 0)` and
`lead.get('region', '')` make a missing field indistinguishable from the
default value, so the fields are total here. -/
structure Lead where
  company_industry : String
  company_size : Int
  region : String

/-- Embedding of `LeadProcessor.calculate_total_score`: weighted sum of the
three sub-scores rounded to 3 decimals, plus the list of "+"-prefixed
reasons of the sub-scores strictly above 0.7, in industry/size/region
order. -/
def calculate_total_score (lead : Lead) : Rat × List String :=
  let is := calculate_industry_score lead.company_industry
  let ss := calculate_company_size_score lead.company_size
  let rs := calculate_region_score lead.region
  let total := is.1 * INDUSTRY_WEIGHT + ss.1 * COMPANY_SIZE_WEIGHT +
    rs.1 * REGION_WEIGHT
  let reasons :=
    (if is.1 > 7/10 then ["+" ++ is.2] else []) ++
    (if ss.1 > 7/10 then ["+" ++ ss.2] else []) ++
    (if rs.1 > 7/10 then ["+" ++ rs.2] else [])
  (pyRound3 total, reasons)

/-- A lead after `rank_leads` has annotated it in place with its score,
reasons and the three sub-scores. -/
structure ScoredLead where
  lead : Lead
  score : Rat
  score_reasons : List String
  industry_score : Rat
  company_size_score : Rat
  region_score : Rat

/-- The in-place mutation performed on each lead by the loop in
`LeadProcessor.rank_leads`. -/
def scoreLead (l : Lead) : ScoredLead :=
  { lead := l
    score := (calculate_total_score l).1
    score_reasons := (calculate_total_score l).2
    industry_score := (calculate_industry_score l.company_industry).1
    company_size_score := (calculate_company_size_score l.company_size).1
    region_score := (calculate_region_score l.region).1 }

/-- The comparison used to embed Python
`sorted(leads, key=lambda x: x['score'], reverse=True)`: `a` may stay
before `b` iff `b.score ≤ a.score`; a stable sort under this relation is
exactly CPython's stable descending sort. -/
def scoreDescBool (a b : ScoredLead) : Bool := decide (b.score ≤ a.score)

/-- Embedding of `LeadProcessor.rank_leads`: annotate every lead, then
stable-sort descending by score. -/
def rank_leads (leads : List Lead) : List ScoredLead :=
  (leads.map scoreLead).mergeSort scoreDescBool

/-- Modelled from the spec side of claim C9: the simpler industry scorer
consisting of only the empty-input default, the substring pass, and the
0.3/"industry:unknown" default. -/
def calculate_industry_score_simple (industry : String) : Rat × String :=
  if industry = "" then (1/2, "industry:unknown")
  else
    match industry_weights.find? (fun kw => pyContains (pyLower industry) kw.1) with
    | some kw => (kw.2, "industry:" ++ kw.1)
    | none => (3/10, "industry:unknown")

/-- A JSON object payload as returned by `response.json()`; the failure
sentinel of `_make_request` is the empty dict `[]`. -/
abbrev Payload := List (String × String)

/-- The retry-relevant mutable fields of an `ApolloAPI` object:
`self.max_retries` and `self.retry_delay` from `__init__`. -/
structure RetryState where
  max_retries : Nat
  retry_delay : Nat

/-- `ApolloAPI.__init__`: `max_retries = 3`, `retry_delay = 1`. -/
def initRetryState : RetryState := ⟨3, 1⟩

/-- The `for attempt in range(max_retries)` loop of
`ApolloAPI._make_request`. The oracle gives the outcome of the HTTP call of
each attempt: `none` means `requests` raised a `RequestException`, `some p`
means a successful response with JSON payload `p`. Returns the result
together with the final `retry_delay`. -/
def makeRequestGo (oracle : Nat → Option Payload) (mr : Nat)
    (attempt : Nat) (delay : Nat) : Payload × Nat :=
  if _h : attempt < mr then
    match oracle attempt with
    | some p => (p, delay)
    | none =>
      if attempt = mr - 1 then ([], delay)
      else makeRequestGo oracle mr (attempt + 1) (delay * 2)
  else ([], delay)
termination_by mr - attempt
decreasing_by omega

/-- Embedding of `ApolloAPI._make_request`: run the retry loop from
attempt 0 with the object's current `retry_delay`, producing the payload
and the updated object state. -/
def make_request (st : RetryState) (oracle : Nat → Option Payload) :
    Payload × RetryState :=
  let r := makeRequestGo oracle st.max_retries 0 st.retry_delay
  (r.1, ⟨st.max_retries, r.2⟩)

/-- Number of failed non-final attempts actually executed by the retry
loop from a given attempt index: each one doubles `retry_delay`. -/
def doublingCount (oracle : Nat → Option Payload) (mr : Nat)
    (attempt : Nat) : Nat :=
  if _h : attempt < mr then
    match oracle attempt with
    | some _ => 0
    | none =>
      if attempt = mr - 1 then 0
      else 1 + doublingCount oracle mr (attempt + 1)
  else 0
termination_by mr - attempt
decreasing_by omega

/-- A sequence of `_make_request` calls on the same `ApolloAPI` object. -/
def run_requests (st : RetryState) (oracles : List (Nat → Option Payload)) :
    RetryState :=
  oracles.foldl (fun s o => (make_request s o).2) st

/-- The metadata record written by `_save_to_cache` (`created_at` is a
human-readable copy of the timestamp and carries no extra state). -/
structure CacheMetadata where
  timestamp : Rat
  leads_count : Nat
  cache_expiry_hours : Rat

/-- The two on-disk cache files; `none` models a missing file. -/
structure CacheState where
  cache_file : Option (List Lead)
  cache_metadata_file : Option CacheMetadata

/-- The cache-relevant configuration fields of an `ApolloAPI` object:
`self.cache_enabled` (default `True`) and `self.cache_expiry_hours`
(default 24). -/
structure CacheConfig where
  cache_enabled : Bool
  cache_expiry_hours : Rat

/-- Embedding of `ApolloAPI._is_cache_valid`: a metadata record must exist
and `(now - timestamp) / 3600` hours must be strictly below the expiry. -/
def is_cache_valid (cfg : CacheConfig) (st : CacheState) (now : Rat) : Bool :=
  match st.cache_metadata_file with
  | none => false
  | some md => decide ((now - md.timestamp) / 3600 < cfg.cache_expiry_hours)

/-- Embedding of `ApolloAPI._load_from_cache`: empty if caching is
disabled or the leads file is missing, empty if the cache is invalid,
otherwise the stored leads. -/
def load_from_cache (cfg : CacheConfig) (st : CacheState) (now : Rat) :
    List Lead :=
  if cfg.cache_enabled = false then []
  else
    match st.cache_file with
    | none => []
    | some leads => if is_cache_valid cfg st now then leads else []

/-- Embedding of `ApolloAPI._save_to_cache`: when caching is enabled,
overwrite the single cache slot and its metadata with the current time. -/
def save_to_cache (cfg : CacheConfig) (st : CacheState) (leads : List Lead)
    (now : Rat) : CacheState :=
  if cfg.cache_enabled then
    { cache_file := some leads
      cache_metadata_file :=
        some ⟨now, leads.length, cfg.cache_expiry_hours⟩ }
  else st

/-- Python `max` over a non-empty list (0 as junk value on `[]`, which the
code never passes). -/
def listMax : List Rat → Rat
  | [] => 0
  | x :: xs => xs.foldl max x

/-- Python `min` over a non-empty list (0 as junk value on `[]`, which the
code never passes). -/
def listMin : List Rat → Rat
  | [] => 0
  | x :: xs => xs.foldl min x

/-- One step of the Python counting-dict idiom
`counts[k] = counts.get(k, 0) + 1`: an existing key keeps its position, a
new key is appended. -/
def bumpCount (counts : List (String × Nat)) (k : String) :
    List (String × Nat) :=
  match counts with
  | [] => [(k, 1)]
  | (k0, n) :: rest =>
    if k0 = k then (k0, n + 1) :: rest else (k0, n) :: bumpCount rest k

/-- The insertion-ordered frequency dict built by the counting loops of
`get_lead_summary`. -/
def countOccurrences (keys : List String) : List (String × Nat) :=
  keys.foldl bumpCount []

/-- The summary dict returned by `LeadProcessor.get_lead_summary` on a
non-empty input. -/
structure Summary where
  total_leads : Nat
  average_score : Rat
  top_score : Rat
  bottom_score : Rat
  regions : List (String × Nat)
  industries : List (String × Nat)
  size_50_100 : Nat
  size_100_300 : Nat
  size_300_500 : Nat

/-- Embedding of `LeadProcessor.get_lead_summary`: the empty dict returned
on empty input becomes `none`; otherwise count, mean/max/min of scores
(rounded to 3 decimals), region and industry frequency counts (industries
stable-sorted descending by count, truncated to 5), and the three
overlapping company-size buckets. -/
def get_lead_summary (leads : List ScoredLead) : Option Summary :=
  if leads.isEmpty then none
  else
    let scores : List Rat := leads.map (fun l => l.score)
    let sizes : List Int := leads.map (fun l => l.lead.company_size)
    some
      { total_leads := leads.length
        average_score := pyRound3 (scores.sum / (scores.length : Rat))
        top_score := pyRound3 (listMax scores)
        bottom_score := pyRound3 (listMin scores)
        regions := countOccurrences (leads.map (fun l => l.lead.region))
        industries :=
          ((countOccurrences (leads.map (fun l => l.lead.company_industry))).mergeSort
            (fun a b => decide (b.2 ≤ a.2))).take 5
        size_50_100 := (sizes.filter (fun n => decide (50 ≤ n ∧ n ≤ 100))).length
        size_100_300 := (sizes.filter (fun n => decide (100 ≤ n ∧ n ≤ 300))).length
        size_300_500 := (sizes.filter (fun n => decide (300 ≤ n ∧ n ≤ 500))).length }

/-- Rounding to 3 decimals fixes any rational that is already an integer
multiple of 1/1000. -/
theorem pyRound3_eq_self (q : Rat) (m : Int) (h : q * 1000 = (m : Rat)) :
    pyRound3 q = q := by
  have h1000 : (1000 : Rat) ≠ 0 := by norm_num
  have hq : q = (m : Rat) / 1000 := by rw [eq_div_iff h1000]; exact h
  simp only [pyRound3, h, Int.floor_intCast, sub_self]
  norm_num [hq]

/-- `List.find?` only looks at the value of the predicate on the list's
elements. -/
theorem findCongrOn {α : Type} (l : List α) (p q : α → Bool)
    (h : ∀ x ∈ l, p x = q x) : l.find? p = l.find? q := by
  induction l with
  | nil => rfl
  | cons a t ih =>
    have ha := h a (List.mem_cons_self a t)
    by_cases hp : p a
    · rw [List.find?_cons_of_pos t hp, List.find?_cons_of_pos t (ha ▸ hp)]
    · rw [List.find?_cons_of_neg t hp, List.find?_cons_of_neg t (ha ▸ hp),
        ih (fun x hx => h x (List.mem_cons_of_mem a hx))]

/-- Every key of the industry weight table is a single whitespace-free
word, so Python `key.split()` returns `[key]`. -/
theorem pySplit_keys : ∀ kw ∈ industry_weights, pySplit kw.1 = [kw.1] := by
  decide

/-- The word-level fallback pass never fires: the full industry scorer
agrees with the simple one on every input. -/
theorem industry_eq_simple (s : String) :
    calculate_industry_score s = calculate_industry_score_simple s := by
  by_cases hs : s = ""
  · simp [calculate_industry_score, calculate_industry_score_simple, hs]
  · simp only [calculate_industry_score, calculate_industry_score_simple,
      if_neg hs]
    have hcong : industry_weights.find?
          (fun kw => (pySplit kw.1).any (fun w => pyContains (pyLower s) w))
        = industry_weights.find? (fun kw => pyContains (pyLower s) kw.1) := by
      apply findCongrOn
      intro kw hkw
      rw [pySplit_keys kw hkw]
      simp
    rw [hcong]
    cases hfind : industry_weights.find? (fun kw => pyContains (pyLower s) kw.1) with
    | some kw => rfl
    | none => rfl

/-- Unfolding of `calculate_total_score` given the three sub-results. -/
theorem calculate_total_score_eq (lead : Lead) (i s r : Rat)
    (ir sr rr : String)
    (hi : calculate_industry_score lead.company_industry = (i, ir))
    (hs : calculate_company_size_score lead.company_size = (s, sr))
    (hr : calculate_region_score lead.region = (r, rr)) :
    calculate_total_score lead =
      (pyRound3 (i * (4/10) + s * (3/10) + r * (3/10)),
        (if i > 7/10 then ["+" ++ ir] else []) ++
        (if s > 7/10 then ["+" ++ sr] else []) ++
        (if r > 7/10 then ["+" ++ rr] else [])) := by
  simp only [calculate_total_score, hi, hs, hr, INDUSTRY_WEIGHT,
    COMPANY_SIZE_WEIGHT, REGION_WEIGHT]

/-- The industry sub-score always lies in [0.3, 1] and is an integer
multiple of 1/10. -/
theorem industry_subscore_facts (s : String) :
    3/10 ≤ (calculate_industry_score s).1 ∧ (calculate_industry_score s).1 ≤ 1
      ∧ ∃ n : Int, (calculate_industry_score s).1 * 10 = (n : Rat) := by
  rw [industry_eq_simple]
  unfold calculate_industry_score_simple
  by_cases hs : s = ""
  · rw [if_pos hs]
    exact ⟨by norm_num, by norm_num, 5, by norm_num⟩
  · rw [if_neg hs]
    cases hfind : industry_weights.find? (fun kw => pyContains (pyLower s) kw.1) with
    | none => exact ⟨by norm_num, by norm_num, 3, by norm_num⟩
    | some kw =>
      have hmem := List.mem_of_find?_eq_some hfind
      have hval : kw.2 = 1 ∨ kw.2 = 9/10 ∨ kw.2 = 8/10 ∨ kw.2 = 7/10 ∨
          kw.2 = 6/10 ∨ kw.2 = 5/10 ∨ kw.2 = 4/10 ∨ kw.2 = 3/10 := by
        simp only [industry_weights, List.mem_cons, List.not_mem_nil,
          or_false] at hmem
        rcases hmem with h|h|h|h|h|h|h|h|h|h|h|h <;> rw [h] <;> norm_num
      rcases hval with h|h|h|h|h|h|h|h
      · exact ⟨by norm_num [h], by norm_num [h], 10, by norm_num [h]⟩
      · exact ⟨by norm_num [h], by norm_num [h], 9, by norm_num [h]⟩
      · exact ⟨by norm_num [h], by norm_num [h], 8, by norm_num [h]⟩
      · exact ⟨by norm_num [h], by norm_num [h], 7, by norm_num [h]⟩
      · exact ⟨by norm_num [h], by norm_num [h], 6, by norm_num [h]⟩
      · exact ⟨by norm_num [h], by norm_num [h], 5, by norm_num [h]⟩
      · exact ⟨by norm_num [h], by norm_num [h], 4, by norm_num [h]⟩
      · exact ⟨by norm_num [h], by norm_num [h], 3, by norm_num [h]⟩

/-- The company-size sub-score always lies in [0.3, 1] and is an integer
multiple of 1/10. -/
theorem size_subscore_facts (n : Int) :
    3/10 ≤ (calculate_company_size_score n).1
      ∧ (calculate_company_size_score n).1 ≤ 1
      ∧ ∃ m : Int, (calculate_company_size_score n).1 * 10 = (m : Rat) := by
  unfold calculate_company_size_score
  by_cases hn : n = 0
  · rw [if_pos hn]
    exact ⟨by norm_num, by norm_num, 5, by norm_num⟩
  · rw [if_neg hn]
    cases hfind : size_ranges.find?
        (fun r => decide (r.lo ≤ n ∧ n ≤ r.hi)) with
    | none =>
      by_cases hsmall : n < 50
      · rw [if_pos hsmall]
        exact ⟨by norm_num, by norm_num, 3, by norm_num⟩
      · rw [if_neg hsmall]
        exact ⟨by norm_num, by norm_num, 3, by norm_num⟩
    | some r =>
      have hmem := List.mem_of_find?_eq_some hfind
      have hval : r.weight = 8/10 ∨ r.weight = 1 ∨ r.weight = 7/10 := by
        simp only [size_ranges, List.mem_cons, List.not_mem_nil,
          or_false] at hmem
        rcases hmem with h|h|h <;> rw [h] <;> norm_num
      rcases hval with h|h|h
      · exact ⟨by norm_num [h], by norm_num [h], 8, by norm_num [h]⟩
      · exact ⟨by norm_num [h], by norm_num [h], 10, by norm_num [h]⟩
      · exact ⟨by norm_num [h], by norm_num [h], 7, by norm_num [h]⟩

/-- The region sub-score always lies in [0.5, 1] and is an integer multiple
of 1/10. -/
theorem region_subscore_facts (s : String) :
    1/2 ≤ (calculate_region_score s).1 ∧ (calculate_region_score s).1 ≤ 1
      ∧ ∃ m : Int, (calculate_region_score s).1 * 10 = (m : Rat) := by
  unfold calculate_region_score
  cases hfind : region_weights.find? (fun kw => decide (kw.1 = s)) with
  | none => exact ⟨by norm_num, by norm_num, 5, by norm_num⟩
  | some kw =>
    have hmem := List.mem_of_find?_eq_some hfind
    have hval : kw.2 = 1 ∨ kw.2 = 9/10 ∨ kw.2 = 1/2 := by
      simp only [region_weights, List.mem_cons, List.not_mem_nil,
        or_false] at hmem
      rcases hmem with h|h|h <;> rw [h] <;> norm_num
    rcases hval with h|h|h
    · exact ⟨by norm_num [h], by norm_num [h], 10, by norm_num [h]⟩
    · exact ⟨by norm_num [h], by norm_num [h], 9, by norm_num [h]⟩
    · exact ⟨by norm_num [h], by norm_num [h], 5, by norm_num [h]⟩

/-- The retry loop multiplies `retry_delay` by 2 once per failed non-final
attempt. -/
theorem makeRequestGo_snd (oracle : Nat → Option Payload) (mr attempt delay : Nat) :
    (makeRequestGo oracle mr attempt delay).2 =
      delay * 2 ^ doublingCount oracle mr attempt := by
  rw [makeRequestGo, doublingCount]
  by_cases hlt : attempt < mr
  · rw [dif_pos hlt, dif_pos hlt]
    cases horacle : oracle attempt with
    | some p => simp
    | none =>
      by_cases hlast : attempt = mr - 1
      · simp [hlast]
      · simp only [if_neg hlast]
        rw [makeRequestGo_snd oracle mr (attempt + 1) (delay * 2)]
        ring
  · rw [dif_neg hlt, dif_neg hlt]
    simp
termination_by mr - attempt
decreasing_by omega

/-- `_make_request` never touches `max_retries` and multiplies
`retry_delay` by `2 ^ (number of failed non-final attempts)`. -/
theorem make_request_state (st : RetryState) (oracle : Nat → Option Payload) :
    (make_request st oracle).2.max_retries = st.max_retries
      ∧ (make_request st oracle).2.retry_delay =
          st.retry_delay * 2 ^ doublingCount oracle st.max_retries 0 := by
  exact ⟨rfl, makeRequestGo_snd oracle st.max_retries 0 st.retry_delay⟩

/-- Across a whole sequence of calls, `retry_delay` is multiplied by
`2 ^ (total failed non-final attempts)` and `max_retries` is unchanged. -/
theorem run_requests_delay (oracles : List (Nat → Option Payload)) :
    ∀ st : RetryState,
      (run_requests st oracles).max_retries = st.max_retries
      ∧ (run_requests st oracles).retry_delay =
          st.retry_delay *
            2 ^ (oracles.map (fun o => doublingCount o st.max_retries 0)).sum := by
  induction oracles with
  | nil => intro st; simp [run_requests]
  | cons o rest ih =>
    intro st
    have hstep := make_request_state st o
    have hrest := ih (make_request st o).2
    constructor
    · show (run_requests (make_request st o).2 rest).max_retries = _
      rw [hrest.1, hstep.1]
    · show (run_requests (make_request st o).2 rest).retry_delay = _
      rw [hrest.2, hstep.2, hstep.1]
      simp [List.map_cons, List.sum_cons, pow_add, Nat.mul_assoc]

/-- A `foldl max` stays inside the seed-plus-elements set. -/
theorem foldl_max_mem (xs : List Rat) : ∀ a : Rat, xs.foldl max a ∈ a :: xs := by
  induction xs with
  | nil => intro a; simp
  | cons x t ih =>
    intro a
    simp only [List.foldl_cons]
    rcases List.mem_cons.mp (ih (max a x)) with h1 | h1
    · rcases max_choice a x with hc | hc
      · rw [h1, hc]; exact List.mem_cons_self _ _
      · rw [h1, hc]; exact List.mem_cons_of_mem _ (List.mem_cons_self _ _)
    · exact List.mem_cons_of_mem _ (List.mem_cons_of_mem _ h1)

/-- A `foldl max` bounds the seed and every element from above. -/
theorem le_foldl_max (xs : List Rat) :
    ∀ a : Rat, a ≤ xs.foldl max a ∧ ∀ y ∈ xs, y ≤ xs.foldl max a := by
  induction xs with
  | nil => intro a; exact ⟨le_refl a, by simp⟩
  | cons x t ih =>
    intro a
    obtain ⟨h1, h2⟩ := ih (max a x)
    simp only [List.foldl_cons]
    refine ⟨le_trans (le_max_left a x) h1, ?_⟩
    intro y hy
    rcases List.mem_cons.mp hy with rfl | hyt
    · exact le_trans (le_max_right a y) h1
    · exact h2 y hyt

/-- A `foldl min` stays inside the seed-plus-elements set. -/
theorem foldl_min_mem (xs : List Rat) : ∀ a : Rat, xs.foldl min a ∈ a :: xs := by
  induction xs with
  | nil => intro a; simp
  | cons x t ih =>
    intro a
    simp only [List.foldl_cons]
    rcases List.mem_cons.mp (ih (min a x)) with h1 | h1
    · rcases min_choice a x with hc | hc
      · rw [h1, hc]; exact List.mem_cons_self _ _
      · rw [h1, hc]; exact List.mem_cons_of_mem _ (List.mem_cons_self _ _)
    · exact List.mem_cons_of_mem _ (List.mem_cons_of_mem _ h1)

/-- A `foldl min` bounds the seed and every element from below. -/
theorem foldl_min_le (xs : List Rat) :
    ∀ a : Rat, xs.foldl min a ≤ a ∧ ∀ y ∈ xs, xs.foldl min a ≤ y := by
  induction xs with
  | nil => intro a; exact ⟨le_refl a, by simp⟩
  | cons x t ih =>
    intro a
    obtain ⟨h1, h2⟩ := ih (min a x)
    simp only [List.foldl_cons]
    refine ⟨le_trans h1 (min_le_left a x), ?_⟩
    intro y hy
    rcases List.mem_cons.mp hy with rfl | hyt
    · exact le_trans h1 (min_le_right a y)
    · exact h2 y hyt

/-- Python `max` of a non-empty list is a member and an upper bound. -/
theorem listMax_facts (xs : List Rat) (h : xs ≠ []) :
    listMax xs ∈ xs ∧ ∀ y ∈ xs, y ≤ listMax xs := by
  cases xs with
  | nil => exact absurd rfl h
  | cons a t =>
    refine ⟨foldl_max_mem t a, ?_⟩
    intro y hy
    rcases List.mem_cons.mp hy with rfl | hyt
    · exact (le_foldl_max t y).1
    · exact (le_foldl_max t a).2 y hyt

/-- Python `min` of a non-empty list is a member and a lower bound. -/
theorem listMin_facts (xs : List Rat) (h : xs ≠ []) :
    listMin xs ∈ xs ∧ ∀ y ∈ xs, listMin xs ≤ y := by
  cases xs with
  | nil => exact absurd rfl h
  | cons a t =>
    refine ⟨foldl_min_mem t a, ?_⟩
    intro y hy
    rcases List.mem_cons.mp hy with rfl | hyt
    · exact (foldl_min_le t y).1
    · exact (foldl_min_le t a).2 y hyt

/-- C1: for every lead, `calculate_total_score` returns the weighted sum
`industry*0.4 + size*0.3 + region*0.3` rounded to 3 decimals together with
the "+"-prefixed reasons of the sub-scores strictly above 0.7 in
industry/size/region order; on the Software/150/North America lead it
returns 1.0 with all three reasons, and on the Retail/700/Other lead it
returns 0.40 with no reasons. -/
theorem claim_total_score_formula_and_examples :
    (∀ lead : Lead,
      calculate_total_score lead =
        (pyRound3 ((calculate_industry_score lead.company_industry).1 * (4/10)
            + (calculate_company_size_score lead.company_size).1 * (3/10)
            + (calculate_region_score lead.region).1 * (3/10)),
          (if (calculate_industry_score lead.company_industry).1 > 7/10
            then ["+" ++ (calculate_industry_score lead.company_industry).2] else [])
          ++ (if (calculate_company_size_score lead.company_size).1 > 7/10
            then ["+" ++ (calculate_company_size_score lead.company_size).2] else [])
          ++ (if (calculate_region_score lead.region).1 > 7/10
            then ["+" ++ (calculate_region_score lead.region).2] else [])))
    ∧ calculate_total_score ⟨"Software", 150, "North America"⟩ =
        (1, ["+industry:software", "+size:100-300", "+region:north america"])
    ∧ calculate_total_score ⟨"Retail", 700, "Other"⟩ = (2/5, []) := by
  refine ⟨fun lead => rfl, ?_, ?_⟩
  · rw [calculate_total_score_eq ⟨"Software", 150, "North America"⟩ 1 1 1
      "industry:software" "size:100-300" "region:north america" rfl rfl rfl]
    rw [pyRound3_eq_self (1 * (4/10) + 1 * (3/10) + 1 * (3/10)) 1000 (by norm_num)]
    norm_num
    exact ⟨rfl, rfl, rfl⟩
  · rw [calculate_total_score_eq ⟨"Retail", 700, "Other"⟩ (4/10) (3/10) (1/2)
      "industry:retail" "size:too-large" "region:other" rfl rfl rfl]
    rw [pyRound3_eq_self (4/10 * (4/10) + 3/10 * (3/10) + 1/2 * (3/10)) 400
      (by norm_num)]
    norm_num

/-- C2 counterexample: at company size 100 the `'50-100'` range is tried
first, so the score is 0.8, not the claimed 1.0. -/
theorem claim_size_range_cex :
    calculate_company_size_score 100 = (8/10, "size:50-100")
      ∧ ((8 : Rat)/10) ≠ 1 :=
  ⟨rfl, by norm_num⟩

/-- C2 amended: sizes 101..300 score 1.0 ("size:100-300"); size exactly
100 scores 0.8 ("size:50-100") because the 50-100 range is checked first;
size 0 or missing scores 0.5 ("size:unknown"). -/
theorem claim_size_range_amended :
    (∀ n : Int, 101 ≤ n → n ≤ 300 →
      calculate_company_size_score n = (1, "size:100-300"))
    ∧ calculate_company_size_score 100 = (8/10, "size:50-100")
    ∧ calculate_company_size_score 0 = (1/2, "size:unknown") := by
  refine ⟨?_, rfl, rfl⟩
  intro n h1 h2
  unfold calculate_company_size_score
  rw [if_neg (by omega : ¬ n = 0)]
  have hfind : size_ranges.find?
      (fun r => decide (r.lo ≤ n ∧ n ≤ r.hi)) = some ⟨"100-300", 100, 300, 1⟩ := by
    rw [size_ranges]
    rw [List.find?_cons_of_neg _ (by simp; omega)]
    rw [List.find?_cons_of_pos _ (by simp; omega)]
  rw [hfind]
  rfl

/-- C2 witness: size 150 falls in the amended 101..300 band. -/
theorem claim_size_range_amended_witness :
    calculate_company_size_score 150 = (1, "size:100-300") :=
  claim_size_range_amended.1 150 (by norm_num) (by norm_num)

/-- C3 counterexample: the empty industry string matches no table entry,
yet the code returns the 0.5 neutral default, not the claimed 0.3. -/
theorem claim_industry_unknown_cex :
    calculate_industry_score "" = (1/2, "industry:unknown")
      ∧ ((1 : Rat)/2) ≠ 3/10 :=
  ⟨rfl, by norm_num⟩

/-- C3 amended: every NON-EMPTY industry string on which both matching
passes fail for every table entry scores exactly 0.3 with reason
"industry:unknown"; the empty/missing string instead returns the 0.5
neutral default with the same reason. -/
theorem claim_industry_unknown_amended (s : String) (hne : s ≠ "")
    (h : ∀ kw ∈ industry_weights,
      pyContains (pyLower s) kw.1 = false
      ∧ (pySplit kw.1).any (fun w => pyContains (pyLower s) w) = false) :
    calculate_industry_score s = (3/10, "industry:unknown") := by
  have h1 : industry_weights.find? (fun kw => pyContains (pyLower s) kw.1) = none :=
    List.find?_eq_none.mpr (fun kw hkw => by simp [(h kw hkw).1])
  have h2 : industry_weights.find?
      (fun kw => (pySplit kw.1).any (fun w => pyContains (pyLower s) w)) = none :=
    List.find?_eq_none.mpr (fun kw hkw => by simp [(h kw hkw).2])
  simp [calculate_industry_score, if_neg hne, h1, h2]

/-- C3 witness: "astrology" matches no table entry in either pass. -/
theorem claim_industry_unknown_amended_witness :
    calculate_industry_score "astrology" = (3/10, "industry:unknown") :=
  claim_industry_unknown_amended "astrology" (by decide) (by decide)

/-- C4: `rank_leads` returns a permutation of the scored input, sorted in
descending score order, and any two entries with equal score keep their
input order (stability). -/
theorem claim_rank_leads_sorted_stable (leads : List Lead) :
    (rank_leads leads).Perm (leads.map scoreLead)
    ∧ (rank_leads leads).Pairwise (fun a b => b.score ≤ a.score)
    ∧ ∀ a b : ScoredLead, a.score = b.score →
        [a, b].Sublist (leads.map scoreLead) →
        [a, b].Sublist (rank_leads leads) := by
  have htrans : ∀ (a b c : ScoredLead),
      scoreDescBool a b → scoreDescBool b c → scoreDescBool a c := by
    intro a b c hab hbc
    simp only [scoreDescBool, decide_eq_true_eq] at hab hbc ⊢
    exact le_trans hbc hab
  have htotal : ∀ (a b : ScoredLead), scoreDescBool a b || scoreDescBool b a := by
    intro a b
    simp only [scoreDescBool, Bool.or_eq_true, decide_eq_true_eq]
    exact le_total b.score a.score
  refine ⟨List.mergeSort_perm _ _, ?_, ?_⟩
  · have hp := List.sorted_mergeSort htrans htotal (leads.map scoreLead)
    exact hp.imp (fun h => by simpa [scoreDescBool] using h)
  · intro a b hab hsub
    exact List.pair_sublist_mergeSort htrans htotal
      (by simp [scoreDescBool, hab]) hsub

/-- C4 witness: two distinct leads with equal score 0.4 stay in input
order. -/
theorem claim_rank_leads_sorted_stable_witness :
    [scoreLead ⟨"Retail", 700, "Other"⟩,
     scoreLead ⟨"Education", 700, "Other"⟩].Sublist
      (rank_leads [⟨"Retail", 700, "Other"⟩, ⟨"Education", 700, "Other"⟩]) :=
  (claim_rank_leads_sorted_stable
      [⟨"Retail", 700, "Other"⟩, ⟨"Education", 700, "Other"⟩]).2.2
    (scoreLead ⟨"Retail", 700, "Other"⟩)
    (scoreLead ⟨"Education", 700, "Other"⟩)
    rfl (List.Sublist.refl _)

/-- C5: with `max_retries = 3`, if the first `N - 1` attempts raise and
the N-th succeeds (`N ≤ 3`), `_make_request` returns the success payload;
if all 3 attempts raise, it returns the empty dict, never an exception. -/
theorem claim_make_request_retries :
    (∀ (oracle : Nat → Option Payload) (N : Nat) (p : Payload),
      1 ≤ N → N ≤ 3 → (∀ i, i < N - 1 → oracle i = none) →
      oracle (N - 1) = some p →
      (make_request initRetryState oracle).1 = p)
    ∧ ∀ oracle : Nat → Option Payload,
        (∀ i, i < 3 → oracle i = none) →
        (make_request initRetryState oracle).1 = [] := by
  constructor
  · intro oracle N p h1 h3 hfail hsucc
    interval_cases N
    · norm_num at hsucc
      simp only [make_request, initRetryState]
      rw [makeRequestGo, dif_pos (by norm_num), hsucc]
    · norm_num at hsucc
      have h0 : oracle 0 = none := hfail 0 (by norm_num)
      simp only [make_request, initRetryState]
      rw [makeRequestGo, dif_pos (by norm_num), h0]
      rw [if_neg (by norm_num)]
      rw [makeRequestGo, dif_pos (by norm_num), hsucc]
    · norm_num at hsucc
      have h0 : oracle 0 = none := hfail 0 (by norm_num)
      have h1' : oracle 1 = none := hfail 1 (by norm_num)
      simp only [make_request, initRetryState]
      rw [makeRequestGo, dif_pos (by norm_num), h0]
      rw [if_neg (by norm_num)]
      rw [makeRequestGo, dif_pos (by norm_num), h1']
      rw [if_neg (by norm_num)]
      rw [makeRequestGo, dif_pos (by norm_num), hsucc]
  · intro oracle hfail
    have h0 : oracle 0 = none := hfail 0 (by norm_num)
    have h1' : oracle 1 = none := hfail 1 (by norm_num)
    have h2 : oracle 2 = none := hfail 2 (by norm_num)
    simp only [make_request, initRetryState]
    rw [makeRequestGo, dif_pos (by norm_num), h0]
    rw [if_neg (by norm_num)]
    rw [makeRequestGo, dif_pos (by norm_num), h1']
    rw [if_neg (by norm_num)]
    rw [makeRequestGo, dif_pos (by norm_num), h2]
    rw [if_pos (by norm_num)]

/-- C5 witness: one failure then a success on attempt 2 of 3 returns the
success payload. -/
theorem claim_make_request_retries_witness :
    (make_request initRetryState
      (fun i => if i = 1 then some [("status", "ok")] else none)).1 =
      [("status", "ok")] :=
  claim_make_request_retries.1
    (fun i => if i = 1 then some [("status", "ok")] else none) 2
    [("status", "ok")] (by norm_num) (by norm_num) (by decide) (by decide)

/-- C6: after `_save_to_cache(X)` at time `tSave` (caching enabled), a
`_load_from_cache` at time `tLoad` returns `X` while
`(tLoad - tSave)/3600` is strictly below the expiry, returns `[]` once the
window has elapsed, and returns `[]` whenever no metadata record exists. -/
theorem claim_cache_round_trip (cfg : CacheConfig) (st : CacheState)
    (leads : List Lead) (tSave tLoad : Rat)
    (hen : cfg.cache_enabled = true) :
    ((tLoad - tSave) / 3600 < cfg.cache_expiry_hours →
      load_from_cache cfg (save_to_cache cfg st leads tSave) tLoad = leads)
    ∧ (cfg.cache_expiry_hours ≤ (tLoad - tSave) / 3600 →
      load_from_cache cfg (save_to_cache cfg st leads tSave) tLoad = [])
    ∧ ∀ st2 : CacheState, st2.cache_metadata_file = none →
        load_from_cache cfg st2 tLoad = [] := by
  refine ⟨?_, ?_, ?_⟩
  · intro hfresh
    simp [save_to_cache, load_from_cache, is_cache_valid, hen, hfresh]
  · intro hexp
    simp [save_to_cache, load_from_cache, is_cache_valid, hen,
      not_lt.mpr hexp]
  · intro st2 hmd
    cases hcf : st2.cache_file <;>
      simp [load_from_cache, is_cache_valid, hmd, hen, hcf]

/-- C6 witness: a save at time 0 with 24-hour expiry is readable after one
hour, empty after 100 hours, and an absent metadata record loads empty. -/
theorem claim_cache_round_trip_witness :
    load_from_cache ⟨true, 24⟩
        (save_to_cache ⟨true, 24⟩ ⟨none, none⟩
          [⟨"Software", 150, "North America"⟩] 0) 3600 =
      [⟨"Software", 150, "North America"⟩]
    ∧ load_from_cache ⟨true, 24⟩
        (save_to_cache ⟨true, 24⟩ ⟨none, none⟩
          [⟨"Software", 150, "North America"⟩] 0) (100 * 3600) = []
    ∧ load_from_cache ⟨true, 24⟩ ⟨some [], none⟩ 0 = [] :=
  ⟨(claim_cache_round_trip ⟨true, 24⟩ ⟨none, none⟩
      [⟨"Software", 150, "North America"⟩] 0 3600 rfl).1 (by norm_num),
   (claim_cache_round_trip ⟨true, 24⟩ ⟨none, none⟩
      [⟨"Software", 150, "North America"⟩] 0 (100 * 3600) rfl).2.1 (by norm_num),
   (claim_cache_round_trip ⟨true, 24⟩ ⟨none, none⟩
      [⟨"Software", 150, "North America"⟩] 0 0 rfl).2.2 ⟨some [], none⟩ rfl⟩

/-- C7: `retry_delay` starts at 1, never decreases across any sequence of
`_make_request` calls on the same object, and after `k` failed non-final
attempts over the object's lifetime equals `2 ^ k`. -/
theorem claim_retry_delay_monotone :
    initRetryState.retry_delay = 1
    ∧ (∀ oracles : List (Nat → Option Payload),
        (run_requests initRetryState oracles).retry_delay =
          2 ^ (oracles.map (fun o => doublingCount o 3 0)).sum)
    ∧ (∀ (st : RetryState) (oracle : Nat → Option Payload),
        st.retry_delay ≤ (make_request st oracle).2.retry_delay)
    ∧ ∀ (pre suf : List (Nat → Option Payload)),
        (run_requests initRetryState pre).retry_delay ≤
          (run_requests initRetryState (pre ++ suf)).retry_delay := by
  have hstep : ∀ (st : RetryState) (oracle : Nat → Option Payload),
      st.retry_delay ≤ (make_request st oracle).2.retry_delay := by
    intro st oracle
    rw [(make_request_state st oracle).2]
    exact le_mul_of_one_le_right (Nat.zero_le _)
      (Nat.one_le_pow _ _ (by norm_num))
  have hmono : ∀ (l : List (Nat → Option Payload)) (st : RetryState),
      st.retry_delay ≤ (run_requests st l).retry_delay := by
    intro l
    induction l with
    | nil => intro st; exact le_refl _
    | cons o rest ih =>
      intro st
      exact le_trans (hstep st o) (ih ((make_request st o).2))
  refine ⟨rfl, ?_, hstep, ?_⟩
  · intro oracles
    have h := (run_requests_delay oracles initRetryState).2
    simpa [initRetryState] using h
  · intro pre suf
    have hsplit : run_requests initRetryState (pre ++ suf) =
        run_requests (run_requests initRetryState pre) suf := by
      simp [run_requests, List.foldl_append]
    rw [hsplit]
    exact hmono suf _

/-- C8 counterexample: on the empty input `get_lead_summary` returns the
empty dict (no summary record at all), not zero-valued statistics. -/
theorem claim_summary_empty_cex :
    ¬ ∃ s : Summary, get_lead_summary [] = some s := by
  rintro ⟨s, hs⟩
  simp [get_lead_summary] at hs

/-- C8 amended: on every NON-EMPTY input `get_lead_summary` returns the
lead count and the mean, max and min score rounded to 3 decimals (the
division is guarded by the non-emptiness check); on the empty input it
returns the empty dict instead of zero statistics. -/
theorem claim_summary_amended :
    get_lead_summary ([] : List ScoredLead) = none
    ∧ ∀ leads : List ScoredLead, leads ≠ [] →
        ∃ s : Summary, get_lead_summary leads = some s
          ∧ s.total_leads = leads.length
          ∧ s.average_score =
              pyRound3 ((leads.map (fun l => l.score)).sum / (leads.length : Rat))
          ∧ (∃ m ∈ leads.map (fun l => l.score),
              (∀ y ∈ leads.map (fun l => l.score), y ≤ m)
                ∧ s.top_score = pyRound3 m)
          ∧ ∃ m ∈ leads.map (fun l => l.score),
              (∀ y ∈ leads.map (fun l => l.score), m ≤ y)
                ∧ s.bottom_score = pyRound3 m := by
  refine ⟨rfl, ?_⟩
  intro leads hne
  have hscores : leads.map (fun l => l.score) ≠ [] := by
    intro h
    exact hne (List.map_eq_nil_iff.mp h)
  have hempty : leads.isEmpty = false := by
    cases leads with
    | nil => exact absurd rfl hne
    | cons a t => rfl
  unfold get_lead_summary
  rw [hempty]
  simp only [Bool.false_eq_true, if_false]
  refine ⟨_, rfl, rfl, ?_, ?_, ?_⟩
  · show pyRound3 ((leads.map (fun l => l.score)).sum /
        ((leads.map (fun l => l.score)).length : Rat)) = _
    rw [List.length_map]
  · refine ⟨listMax (leads.map (fun l => l.score)), ?_, ?_, ?_⟩
    · exact (listMax_facts _ hscores).1
    · exact (listMax_facts _ hscores).2
    · rfl
  · refine ⟨listMin (leads.map (fun l => l.score)), ?_, ?_, ?_⟩
    · exact (listMin_facts _ hscores).1
    · exact (listMin_facts _ hscores).2
    · rfl

/-- C8 witness: the single-lead list has count 1 and mean, max and min all
equal to the rounded score of that lead. -/
theorem claim_summary_amended_witness :
    ∃ s : Summary,
      get_lead_summary [scoreLead ⟨"Software", 150, "North America"⟩] = some s
        ∧ s.total_leads = [scoreLead ⟨"Software", 150, "North America"⟩].length
        ∧ s.average_score =
            pyRound3 (([scoreLead ⟨"Software", 150, "North America"⟩].map
                (fun l => l.score)).sum /
              (([scoreLead ⟨"Software", 150, "North America"⟩].length : Nat) : Rat))
        ∧ (∃ m ∈ [scoreLead ⟨"Software", 150, "North America"⟩].map
              (fun l => l.score),
            (∀ y ∈ [scoreLead ⟨"Software", 150, "North America"⟩].map
                (fun l => l.score), y ≤ m)
              ∧ s.top_score = pyRound3 m)
        ∧ ∃ m ∈ [scoreLead ⟨"Software", 150, "North America"⟩].map
              (fun l => l.score),
            (∀ y ∈ [scoreLead ⟨"Software", 150, "North America"⟩].map
                (fun l => l.score), m ≤ y)
              ∧ s.bottom_score = pyRound3 m :=
  claim_summary_amended.2 [scoreLead ⟨"Software", 150, "North America"⟩]
    (List.cons_ne_nil _ _)

/-- C9: every key of the industry table is one whitespace-free word, so
the word-level fallback pass can never match anything the substring pass
missed: the scorer never emits a "(partial)" reason and is extensionally
equal to the simple scorer without the fallback pass. -/
theorem claim_industry_word_pass_dead :
    ∀ s : String,
      calculate_industry_score s = calculate_industry_score_simple s
      ∧ "(partial)".data.isSuffixOf (calculate_industry_score s).2.data
          = false := by
  intro s
  refine ⟨industry_eq_simple s, ?_⟩
  rw [industry_eq_simple]
  unfold calculate_industry_score_simple
  by_cases hs : s = ""
  · rw [if_pos hs]; decide
  · rw [if_neg hs]
    cases hfind : industry_weights.find?
        (fun kw => pyContains (pyLower s) kw.1) with
    | none => decide
    | some kw =>
      have hmem := List.mem_of_find?_eq_some hfind
      have hkeys : ∀ kw ∈ industry_weights,
          "(partial)".data.isSuffixOf ("industry:" ++ kw.1).data = false := by
        decide
      exact hkeys kw hmem

/-- C10: with the default 0.4/0.3/0.3 weights, the total score of any lead
lies in [0.36, 1]: the minimal sub-scores are 0.3 (industry), 0.3 (size)
and 0.5 (region), so the total is never 0 and never below 0.36. -/
theorem claim_total_score_bounds (lead : Lead) :
    36/100 ≤ (calculate_total_score lead).1
    ∧ (calculate_total_score lead).1 ≤ 1
    ∧ (calculate_total_score lead).1 ≠ 0 := by
  obtain ⟨hi1, hi2, ni, hni⟩ := industry_subscore_facts lead.company_industry
  obtain ⟨hs1, hs2, ns, hns⟩ := size_subscore_facts lead.company_size
  obtain ⟨hr1, hr2, nr, hnr⟩ := region_subscore_facts lead.region
  have htot : (calculate_total_score lead).1 =
      pyRound3 ((calculate_industry_score lead.company_industry).1 * INDUSTRY_WEIGHT
        + (calculate_company_size_score lead.company_size).1 * COMPANY_SIZE_WEIGHT
        + (calculate_region_score lead.region).1 * REGION_WEIGHT) := rfl
  have hmul : ((calculate_industry_score lead.company_industry).1 * INDUSTRY_WEIGHT
      + (calculate_company_size_score lead.company_size).1 * COMPANY_SIZE_WEIGHT
      + (calculate_region_score lead.region).1 * REGION_WEIGHT) * 1000
      = ((ni * 40 + ns * 30 + nr * 30 : Int) : Rat) := by
    have hsplit : ((calculate_industry_score lead.company_industry).1 * INDUSTRY_WEIGHT
        + (calculate_company_size_score lead.company_size).1 * COMPANY_SIZE_WEIGHT
        + (calculate_region_score lead.region).1 * REGION_WEIGHT) * 1000
        = ((calculate_industry_score lead.company_industry).1 * 10) * 40
          + ((calculate_company_size_score lead.company_size).1 * 10) * 30
          + ((calculate_region_score lead.region).1 * 10) * 30 := by
      simp only [INDUSTRY_WEIGHT, COMPANY_SIZE_WEIGHT, REGION_WEIGHT]
      ring
    rw [hsplit, hni, hns, hnr]
    push_cast
    ring
  have hround := pyRound3_eq_self _ _ hmul
  rw [htot, hround]
  have hlow : 36/100 ≤
      (calculate_industry_score lead.company_industry).1 * INDUSTRY_WEIGHT
      + (calculate_company_size_score lead.company_size).1 * COMPANY_SIZE_WEIGHT
      + (calculate_region_score lead.region).1 * REGION_WEIGHT := by
    simp only [INDUSTRY_WEIGHT, COMPANY_SIZE_WEIGHT, REGION_WEIGHT]
    linarith
  have hhigh : (calculate_industry_score lead.company_industry).1 * INDUSTRY_WEIGHT
      + (calculate_company_size_score lead.company_size).1 * COMPANY_SIZE_WEIGHT
      + (calculate_region_score lead.region).1 * REGION_WEIGHT ≤ 1 := by
    simp only [INDUSTRY_WEIGHT, COMPANY_SIZE_WEIGHT, REGION_WEIGHT]
    linarith
  refine ⟨hlow, hhigh, ?_⟩
  intro h0
  rw [h0] at hlow
  norm_num at hlow

/-- The two revisions of the size scorer disagree at the boundary 100: the
flat revision gives the optimal-range score 1.0 there, while the
table-driven revision in `bdr_ai` gives 0.8 ("size:50-100"). -/
theorem size_score_revisions_disagree_at_100 :
    calculate_company_size_score_flat 100 = 1
      ∧ (calculate_company_size_score 100).1 = 8/10 :=
  ⟨rfl, rfl⟩
